import Mathlib

/-!
Verification of the marketing-year resegmentation and seasonal-alignment
transform of the USDA ESR dashboard.

The definitions below are a shallow embedding of the pandas code in
`src/esr_views.py` (functions `seasonal_commitments_plot` and
`seasonal_line_plot`) and `src/usda_api.py` (`get_esr_exports`).
A data frame is a list of rows; the groupby/sort/cumcount pipeline is
translated step by step; fallible pandas operations (missing columns,
`iloc` on empty selections) return `Except`.
-/

/-- A calendar date, ordered lexicographically by (year, month, day).
This models the `weekEndingDate` values produced by `pd.to_datetime`. -/
structure Date where
  year : Int
  month : Nat
  day : Nat
deriving DecidableEq

/-- Strict chronological order on dates (lexicographic on year, month, day). -/
def dateLT (a b : Date) : Prop :=
  a.year < b.year ∨ (a.year = b.year ∧ (a.month < b.month ∨ (a.month = b.month ∧ a.day < b.day)))

/-- Chronological order on dates, non-strict. -/
def dateLE (a b : Date) : Prop :=
  a.year < b.year ∨ (a.year = b.year ∧ (a.month < b.month ∨ (a.month = b.month ∧ a.day ≤ b.day)))

instance : DecidableRel dateLT := fun a b =>
  inferInstanceAs (Decidable (a.year < b.year ∨ (a.year = b.year ∧ (a.month < b.month ∨ (a.month = b.month ∧ a.day < b.day)))))

instance : DecidableRel dateLE := fun a b =>
  inferInstanceAs (Decidable (a.year < b.year ∨ (a.year = b.year ∧ (a.month < b.month ∨ (a.month = b.month ∧ a.day ≤ b.day)))))

/-- Group key of a raw observation row: the (MY, weekEndingDate) pair the
pandas `groupby(["MY", "weekEndingDate"])` groups on. -/
def keyOf {β : Type} (r : Int × Date × β) : Int × Date := (r.1, r.2.1)

/-- Order on group keys: by MY, then by date.  This is the sort order of
`groupby(["MY", "weekEndingDate"]).sum()` / `sort_values(["MY", "weekEndingDate"])`. -/
def keyLE (a b : Int × Date) : Prop :=
  a.1 < b.1 ∨ (a.1 = b.1 ∧ dateLE a.2 b.2)

instance : DecidableRel keyLE := fun a b =>
  inferInstanceAs (Decidable (a.1 < b.1 ∨ (a.1 = b.1 ∧ dateLE a.2 b.2)))

instance : IsTotal (Int × Date) keyLE where
  total a b := by
    rcases a with ⟨a1, ⟨ay, am, ad⟩⟩
    rcases b with ⟨b1, ⟨by_, bm, bd⟩⟩
    simp only [keyLE, dateLE]
    omega

instance : IsTrans (Int × Date) keyLE where
  trans a b c h1 h2 := by
    rcases a with ⟨a1, ⟨ay, am, ad⟩⟩
    rcases b with ⟨b1, ⟨by_, bm, bd⟩⟩
    rcases c with ⟨c1, ⟨cy, cm, cd⟩⟩
    simp only [keyLE, dateLE] at h1 h2 ⊢
    omega

/-- Distinct group keys of the data, i.e. the index of the pandas
`groupby(["MY", "weekEndingDate"], as_index=False)` result. -/
def keysOf {β : Type} (data : List (Int × Date × β)) : List (Int × Date) :=
  (data.map keyOf).dedup

/-- Group keys sorted by (MY, date): `groupby` sorts its keys, and
`sort_values(["MY", "weekEndingDate"])` keeps that order. -/
def sortedKeys {β : Type} (data : List (Int × Date × β)) : List (Int × Date) :=
  List.insertionSort keyLE (keysOf data)

/-- Sum of the measure over all raw rows in one (MY, weekEndingDate) group:
the `.sum()` of the pandas groupby. -/
def groupSum {β : Type} [Add β] [Zero β] (data : List (Int × Date × β)) (k : Int × Date) : β :=
  ((data.filter (fun r => decide (keyOf r = k))).map (fun r => r.2.2)).sum

/-- The aggregated frame `weekly` before week indexing: one row per
(MY, weekEndingDate) pair, sorted by (MY, date), carrying the group sums. -/
def aggRows {β : Type} [Add β] [Zero β] (data : List (Int × Date × β)) : List (Int × Date × β) :=
  (sortedKeys data).map (fun k => (k.1, k.2, groupSum data k))

/-- One row of the `weekly` frame after week indexing: marketing year, report
date, aggregated measure(s) and the 1-based `MktingWeek` index. -/
structure WRow (β : Type) where
  my : Int
  date : Date
  val : β
  week : Nat
deriving DecidableEq

/-- Week indexing, `weekly.groupby("MY").cumcount() + 1`: each row's week is
one plus the number of earlier rows with the same MY.  `seen` carries the MY
labels of the rows already processed. -/
def addWeeks {β : Type} (seen : List Int) : List (Int × Date × β) → List (WRow β)
  | [] => []
  | (m, d, v) :: rest => ⟨m, d, v, seen.count m + 1⟩ :: addWeeks (m :: seen) rest

/-- The full `weekly` frame: aggregate to one row per (MY, weekEndingDate),
sort by (MY, date), and add the per-MY week index (src/esr_views.py lines
152-159 and 281-286). -/
def weeklyOf {β : Type} [Add β] [Zero β] (data : List (Int × Date × β)) : List (WRow β) :=
  addWeeks [] (aggRows data)

/-- Binary maximum of two dates. -/
def maxD (a b : Date) : Date := if dateLE a b then b else a

/-- Maximum of a list of dates, `weekly["weekEndingDate"].max()`; `none` on an
empty list (pandas NaT). -/
def maxDate : List Date → Option Date
  | [] => none
  | d :: ds => some (ds.foldl maxD d)

/-- Occurrence counts of each distinct value of a series. -/
def valueCounts (l : List Int) : List (Int × Nat) :=
  l.dedup.map (fun v => (v, l.count v))

/-- The largest occurrence count in a series. -/
def modeMax (l : List Int) : Nat :=
  ((valueCounts l).map (fun p => p.2)).foldr max 0

/-- The values attaining the largest occurrence count. -/
def modesOf (l : List Int) : List Int :=
  ((valueCounts l).filter (fun p => decide (p.2 = modeMax l))).map (fun p => p.1)

/-- Model of `pandas.Series.mode().iloc[0]`: the most frequent values, sorted
ascending, first one taken; `none` when the series is empty (IndexError). -/
def modeFirst (l : List Int) : Option Int :=
  (List.insertionSort (· ≤ ·) (modesOf l)).head?

/-- The current marketing year: the mode of `MY` over the `weekly` rows whose
date is the latest report date (src/esr_views.py lines 162-163 and 288-289). -/
def cmyOf {β : Type} (w : List (WRow β)) : Option Int :=
  match maxDate (w.map (fun r => r.date)) with
  | none => none
  | some ld => modeFirst ((w.filter (fun r => decide (r.date = ld))).map (fun r => r.my))

/-- Python `lst[-n:]`: the last `n` elements, or the whole list when `n = 0`
(Python slice semantics) or when the list is shorter than `n`. -/
def takeLastPy {α : Type} (n : Nat) (l : List α) : List α :=
  if n = 0 then l else l.drop (l.length - n)

/-- The distinct MY labels of the weekly frame, `weekly["MY"].unique()`. -/
def uniqueMYs {β : Type} (w : List (WRow β)) : List Int :=
  (w.map (fun r => r.my)).dedup

/-- Year selection of `seasonal_line_plot` (line 291):
`sorted([y for y in weekly["MY"].unique() if y <= CMY])[-years:]`. -/
def lineYears {β : Type} (w : List (WRow β)) (cmy : Int) (years : Nat) : List Int :=
  takeLastPy years (List.insertionSort (· ≤ ·) ((uniqueMYs w).filter (fun y => decide (y ≤ cmy))))

/-- Prior-year selection of `seasonal_commitments_plot` (line 184):
`sorted([y for y in weekly["MY"].unique() if y < CMY])[-5:]`. -/
def prevYears5 {β : Type} (w : List (WRow β)) (cmy : Int) : List Int :=
  takeLastPy 5 (List.insertionSort (· ≤ ·) ((uniqueMYs w).filter (fun y => decide (y < cmy))))

/-- The per-year aligned series: the (MktingWeek, value) pairs of the weekly
rows with the given MY, in frame order (`d = weekly[weekly["MY"] == y]`,
plotted as `d["MktingWeek"]` against `d[value_col]`). -/
def seriesOf {β : Type} (w : List (WRow β)) (y : Int) : List (Nat × β) :=
  (w.filter (fun r => decide (r.my = y))).map (fun r => (r.week, r.val))

/-- One row of an input data frame.  The `my` and `date` fields hold the
parsed values of the `MY` and `weekEndingDate` columns; they are consulted
only when the matching column name is declared in the frame's `cols`.
Measure columns are an association list from column name to value. -/
structure FRow where
  my : Int
  date : Date
  measures : List (String × Int)
deriving DecidableEq

/-- A pandas DataFrame: its column names and its rows. -/
structure Frame where
  cols : List String
  rows : List FRow
deriving DecidableEq

/-- Column projection on one row, 0 when the column is absent from the row. -/
def lookupVal (r : FRow) (c : String) : Int :=
  (r.measures.lookup c).getD 0

/-- The projection `df_totals[["MY", "weekEndingDate", value_col]]` as a list
of (MY, date, value) triples. -/
def selectData (df : Frame) (c : String) : List (Int × Date × Int) :=
  df.rows.map (fun r => (r.my, r.date, lookupVal r c))

/-- The weekly frame built by `seasonal_line_plot` for a value column. -/
def lineWeekly (df : Frame) (c : String) : List (WRow Int) :=
  weeklyOf (selectData df c)

/-- The data consumed by the seasonal line view, beyond the figure itself:
the data-derived current MY, the selected years, and one aligned
(week, value) series per selected year. -/
structure LineResult where
  cmy : Int
  plotYears : List Int
  series : List (Int × List (Nat × Int))
deriving DecidableEq

/-- Core transform of `seasonal_line_plot` (src/esr_views.py lines 267-299):
check the `MY` column, project `[["MY", "weekEndingDate", value_col]]`,
aggregate to one row per (MY, date), index weeks within each MY, derive the
current MY from the latest report date, select the years and extract one
series per year.  Chart rendering (including the display-only division by
1000 at line 298) is the excluded presentation layer. -/
def seasonal_line_plot (df : Frame) (value_col : String) (years : Nat) : Except String LineResult :=
  if "MY" ∈ df.cols then
    if "weekEndingDate" ∈ df.cols ∧ value_col ∈ df.cols then
      match cmyOf (lineWeekly df value_col) with
      | none => Except.error "IndexError: empty data"
      | some cmy =>
        Except.ok ⟨cmy, lineYears (lineWeekly df value_col) cmy years,
          (lineYears (lineWeekly df value_col) cmy years).map
            (fun y => (y, seriesOf (lineWeekly df value_col) y))⟩
    else Except.error "KeyError: columns not in index"
  else Except.error "ValueError: df_totals must contain column MY."

/-- The weekly frame built by `seasonal_commitments_plot`, carrying the
(accumulatedExports, outstandingSales) pair as measure. -/
def commWeekly (df : Frame) : List (WRow (Int × Int)) :=
  weeklyOf (df.rows.map (fun r =>
    (r.my, r.date, (lookupVal r "accumulatedExports", lookupVal r "outstandingSales"))))

/-- The data consumed by the seasonal commitments view: the current MY, the
prior years drawn as lines, and the aligned series. -/
structure CommitResult where
  cmy : Int
  prevYears : List Int
  cmySeries : List (Nat × (Int × Int))
  prevSeries : List (Int × List (Nat × (Int × Int)))
deriving DecidableEq

/-- Core transform of `seasonal_commitments_plot` (src/esr_views.py lines
143-198): check the `MY` column, aggregate accumulatedExports and
outstandingSales per (MY, date), index weeks, derive the current MY, plot the
current MY as bars and the five most recent prior MYs as lines. -/
def seasonal_commitments_plot (df : Frame) : Except String CommitResult :=
  if "MY" ∈ df.cols then
    if "weekEndingDate" ∈ df.cols ∧ "accumulatedExports" ∈ df.cols ∧ "outstandingSales" ∈ df.cols then
      match cmyOf (commWeekly df) with
      | none => Except.error "IndexError: empty data"
      | some cmy =>
        Except.ok ⟨cmy, prevYears5 (commWeekly df) cmy, seriesOf (commWeekly df) cmy,
          (prevYears5 (commWeekly df) cmy).map (fun y => (y, seriesOf (commWeekly df) y))⟩
    else Except.error "KeyError: columns not in index"
  else Except.error "ValueError: df_totals must contain column MY. Add it in get_esr_exports() by stamping the loop year."

/-- Column union of `pd.concat`: all column names, duplicates removed. -/
def unionCols : List (List String) → List String
  | [] => []
  | c :: cs => (c ++ unionCols cs).dedup

/-- Core of `get_esr_exports` (src/usda_api.py lines 5-29): one frame per
fetched market year is concatenated with `pd.concat(ignore_index=True)` and
the `weekEndingDate` column is parsed in place.  No `MY` column is ever
added; parsing fails (KeyError) when `weekEndingDate` is absent. -/
def get_esr_exports (responses : List Frame) : Except String Frame :=
  let cols := unionCols (responses.map (fun r => r.cols))
  let rows := (responses.map (fun r => r.rows)).flatten
  if "weekEndingDate" ∈ cols then Except.ok ⟨cols, rows⟩
  else Except.error "KeyError: weekEndingDate"

/-- The dashboard render of the seasonal line view at wall-clock time `now`.
The source imports `datetime`, so the wall clock is available to it, but the
seasonal transform never consults it; `now` is therefore unused. -/
def seasonal_line_render (_now : Date) (df : Frame) (value_col : String) (years : Nat) : Except String LineResult :=
  seasonal_line_plot df value_col years

/-- The dashboard render of the seasonal commitments view at wall-clock time
`now`; as in the source, the transform never consults the clock. -/
def seasonal_commitments_render (_now : Date) (df : Frame) : Except String CommitResult :=
  seasonal_commitments_plot df

/-- Definition following the spec's words (section 4.3): the selected MYs are
`{current_my}` together with the `lookback` largest MYs strictly less than
`current_my` that are present in the data.  A year `y` is among the
`lookback` largest strictly-less ones when it is present, below `current_my`,
and fewer than `lookback` present MYs lie strictly between `y` and
`current_my`. -/
def specSelectStrict (mys : List Int) (current_my : Int) (lookback : Nat) (y : Int) : Prop :=
  y = current_my ∨
    (y ∈ mys ∧ y < current_my ∧
      (mys.filter (fun z => decide (y < z ∧ z < current_my))).length < lookback)

instance : ∀ mys cmy lb y, Decidable (specSelectStrict mys cmy lb y) := fun mys cmy lb y =>
  inferInstanceAs (Decidable (y = cmy ∨
    (y ∈ mys ∧ y < cmy ∧ (mys.filter (fun z => decide (y < z ∧ z < cmy))).length < lb)))

/-- Modelled from the spec: the repository contains no marketing-year
assignment code.  `get_esr_exports` (src/usda_api.py) returns the API rows
without an `MY` column, and the error message in `seasonal_commitments_plot`
only instructs the developer to add one by stamping the loop year.  The spec
(sections 3 and 4.1) gives the month-only rule modelled here:
`MY = calendar_year + 1 if month >= start_month else calendar_year`, with a
date exactly on the fiscal start boundary belonging to the new MY. -/
def assign_my (start_month : Nat) (d : Date) : Int :=
  if start_month ≤ d.month then d.year + 1 else d.year

/-- Concrete test frame: six marketing years 2021-2026, one report row per
year, with the latest report date falling in MY 2026.  Carries the columns
needed by both seasonal views plus a generic value column "v". -/
def dfW : Frame :=
  ⟨["MY", "weekEndingDate", "accumulatedExports", "outstandingSales", "v"],
   [⟨2021, ⟨2021, 1, 1⟩, [("accumulatedExports", 10), ("outstandingSales", 5), ("v", 100)]⟩,
    ⟨2022, ⟨2022, 1, 1⟩, [("accumulatedExports", 10), ("outstandingSales", 5), ("v", 200)]⟩,
    ⟨2023, ⟨2023, 1, 1⟩, [("accumulatedExports", 10), ("outstandingSales", 5), ("v", 300)]⟩,
    ⟨2024, ⟨2024, 1, 1⟩, [("accumulatedExports", 10), ("outstandingSales", 5), ("v", 400)]⟩,
    ⟨2025, ⟨2025, 1, 1⟩, [("accumulatedExports", 10), ("outstandingSales", 5), ("v", 500)]⟩,
    ⟨2026, ⟨2026, 1, 1⟩, [("accumulatedExports", 10), ("outstandingSales", 5), ("v", 600)]⟩]⟩

/-- Concrete test frame containing only marketing year 2026, with two report
weeks. -/
def dfOne : Frame :=
  ⟨["MY", "weekEndingDate", "v"],
   [⟨2026, ⟨2025, 8, 7⟩, [("v", 50)]⟩,
    ⟨2026, ⟨2025, 8, 14⟩, [("v", 70)]⟩]⟩

/-- Concrete two-row data set: one report in MY 2026 per week. -/
def dataOne : List (Int × Date × Int) :=
  [(2026, ⟨2025, 8, 7⟩, 50), (2026, ⟨2025, 8, 14⟩, 70)]

/-- The line-view output on `dfW` with value column "v" and five years. -/
def resW : LineResult :=
  ⟨2026, [2022, 2023, 2024, 2025, 2026],
   [(2022, [(1, 200)]), (2023, [(1, 300)]), (2024, [(1, 400)]),
    (2025, [(1, 500)]), (2026, [(1, 600)])]⟩

/-- The commitments-view output on `dfW`. -/
def cresW : CommitResult :=
  ⟨2026, [2021, 2022, 2023, 2024, 2025], [(1, (10, 5))],
   [(2021, [(1, (10, 5))]), (2022, [(1, (10, 5))]), (2023, [(1, (10, 5))]),
    (2024, [(1, (10, 5))]), (2025, [(1, (10, 5))])]⟩

/-- The line-view output on `dfOne` with value column "v" and five years. -/
def resOne : LineResult :=
  ⟨2026, [2026], [(2026, [(1, 50), (2, 70)])]⟩

/-- A concrete API response table, carrying the columns of the ESR endpoint
(which has no MY field). -/
def respW : List Frame :=
  [⟨["weekEndingDate", "weeklyExports"], [⟨0, ⟨2024, 1, 4⟩, [("weeklyExports", 9)]⟩]⟩]

/-- The concatenated frame `get_esr_exports` builds from `respW`. -/
def dfResp : Frame :=
  ⟨["weekEndingDate", "weeklyExports"], [⟨0, ⟨2024, 1, 4⟩, [("weeklyExports", 9)]⟩]⟩

theorem dateLE_refl (a : Date) : dateLE a a := by
  simp [dateLE]

theorem dateLE_total (a b : Date) : dateLE a b ∨ dateLE b a := by
  rcases a with ⟨ay, am, ad⟩; rcases b with ⟨by_, bm, bd⟩
  simp only [dateLE]
  omega

theorem dateLE_trans {a b c : Date} (h1 : dateLE a b) (h2 : dateLE b c) : dateLE a c := by
  rcases a with ⟨ay, am, ad⟩; rcases b with ⟨by_, bm, bd⟩; rcases c with ⟨cy, cm, cd⟩
  simp only [dateLE] at h1 h2 ⊢
  omega

theorem dateLE_antisymm {a b : Date} (h1 : dateLE a b) (h2 : dateLE b a) : a = b := by
  rcases a with ⟨ay, am, ad⟩; rcases b with ⟨by_, bm, bd⟩
  simp only [dateLE] at h1 h2
  simp only [Date.mk.injEq]
  omega

theorem dateLT_of_dateLE_of_ne {a b : Date} (h1 : dateLE a b) (h2 : a ≠ b) : dateLT a b := by
  rcases a with ⟨ay, am, ad⟩; rcases b with ⟨by_, bm, bd⟩
  have h2' : ¬(ay = by_ ∧ am = bm ∧ ad = bd) := by
    intro hh
    obtain ⟨e1, e2, e3⟩ := hh
    subst e1; subst e2; subst e3
    exact h2 rfl
  simp only [dateLE] at h1
  simp only [dateLT]
  omega

theorem addWeeks_filter_week {β : Type} (l : List (Int × Date × β)) :
    ∀ (seen : List Int) (m : Int),
      ((addWeeks seen l).filter (fun r => decide (r.my = m))).map (fun r => r.week)
        = List.range' (seen.count m + 1) ((l.filter (fun r => decide (r.1 = m))).length) := by
  induction l with
  | nil => intro seen m; simp [addWeeks]
  | cons hd tl ih =>
    intro seen m
    obtain ⟨m', d, v⟩ := hd
    by_cases hm : m' = m
    · subst hm
      simp only [addWeeks, List.filter_cons, decide_eq_true_iff]
      rw [if_pos (by simp), if_pos (by simp)]
      simp only [List.map_cons, List.length_cons, List.range'_succ]
      refine congrArg (fun t => (seen.count m' + 1) :: t) ?_
      have := ih (m' :: seen) m'
      rw [this, List.count_cons_self]
    · simp only [addWeeks, List.filter_cons, decide_eq_true_iff]
      rw [if_neg (by simpa using hm), if_neg (by simpa using hm)]
      have := ih (m' :: seen) m
      rw [this, List.count_cons_of_ne (by exact fun h => hm h.symm)]

theorem addWeeks_map_my {β : Type} (l : List (Int × Date × β)) :
    ∀ seen, (addWeeks seen l).map (fun r => r.my) = l.map (fun r => r.1) := by
  induction l with
  | nil => intro seen; simp [addWeeks]
  | cons hd tl ih =>
    intro seen
    obtain ⟨m', d, v⟩ := hd
    simp [addWeeks, ih]

theorem addWeeks_map_date {β : Type} (l : List (Int × Date × β)) :
    ∀ seen, (addWeeks seen l).map (fun r => r.date) = l.map (fun r => r.2.1) := by
  induction l with
  | nil => intro seen; simp [addWeeks]
  | cons hd tl ih =>
    intro seen
    obtain ⟨m', d, v⟩ := hd
    simp [addWeeks, ih]

theorem mem_addWeeks {β : Type} {l : List (Int × Date × β)} :
    ∀ {seen : List Int} {r : WRow β}, r ∈ addWeeks seen l → (r.my, r.date, r.val) ∈ l := by
  induction l with
  | nil => intro seen r h; simp [addWeeks] at h
  | cons hd tl ih =>
    intro seen r h
    obtain ⟨m', d, v⟩ := hd
    simp only [addWeeks] at h
    rcases List.mem_cons.mp h with h | h
    · subst h; simp
    · exact List.mem_cons_of_mem _ (ih h)

theorem addWeeks_filter_map_date {β : Type} (l : List (Int × Date × β)) (m : Int) :
    ∀ seen, ((addWeeks seen l).filter (fun r => decide (r.my = m))).map (fun r => r.date)
      = ((l.filter (fun r => decide (r.1 = m))).map (fun r => r.2.1)) := by
  induction l with
  | nil => intro seen; simp [addWeeks]
  | cons hd tl ih =>
    intro seen
    obtain ⟨m', d, v⟩ := hd
    by_cases hm : m' = m
    · subst hm
      simp only [addWeeks, List.filter_cons, decide_eq_true_iff]
      rw [if_pos (by simp), if_pos (by simp)]
      simp [ih]
    · simp only [addWeeks, List.filter_cons, decide_eq_true_iff]
      rw [if_neg (by simpa using hm), if_neg (by simpa using hm)]
      exact ih (m' :: seen)

theorem mem_keysOf {β : Type} {data : List (Int × Date × β)} {k : Int × Date} :
    k ∈ keysOf data ↔ ∃ r ∈ data, keyOf r = k := by
  simp [keysOf, List.mem_dedup, List.mem_map]

theorem nodup_keysOf {β : Type} (data : List (Int × Date × β)) : (keysOf data).Nodup :=
  List.nodup_dedup _

theorem sortedKeys_perm {β : Type} (data : List (Int × Date × β)) :
    (sortedKeys data).Perm (keysOf data) :=
  List.perm_insertionSort keyLE (keysOf data)

theorem nodup_sortedKeys {β : Type} (data : List (Int × Date × β)) : (sortedKeys data).Nodup :=
  ((sortedKeys_perm data).symm.nodup) (nodup_keysOf data)

theorem sorted_sortedKeys {β : Type} (data : List (Int × Date × β)) :
    List.Sorted keyLE (sortedKeys data) :=
  List.sorted_insertionSort keyLE (keysOf data)

theorem mem_sortedKeys {β : Type} {data : List (Int × Date × β)} {k : Int × Date} :
    k ∈ sortedKeys data ↔ ∃ r ∈ data, keyOf r = k := by
  rw [(sortedKeys_perm data).mem_iff]
  exact mem_keysOf

theorem map_filter_fst_length {β : Type} (l : List (Int × Date)) (g : Int × Date → β) (m : Int) :
    (((l.map (fun k => (k.1, k.2, g k))).filter (fun r => decide (r.1 = m))).length)
      = ((l.filter (fun k => decide (k.1 = m))).length) := by
  rw [← List.countP_eq_length_filter, ← List.countP_eq_length_filter, List.countP_map]
  rfl

theorem keysOf_filter_fst_length {β : Type} (data : List (Int × Date × β)) (m : Int) :
    ((keysOf data).filter (fun k => decide (k.1 = m))).length
      = ((data.filter (fun r => decide (r.1 = m))).map (fun r => r.2.1)).dedup.length := by
  have hA : ((keysOf data).filter (fun k => decide (k.1 = m))).Nodup :=
    List.Nodup.filter _ (nodup_keysOf data)
  have hB : (((keysOf data).filter (fun k => decide (k.1 = m))).map (fun k => k.2)).Nodup := by
    refine List.Nodup.map_on ?_ hA
    intro x hx y hy hxy
    have hx1 : x.1 = m := by
      have := (List.mem_filter.mp hx).2
      simpa using this
    have hy1 : y.1 = m := by
      have := (List.mem_filter.mp hy).2
      simpa using this
    exact Prod.ext (hx1.trans hy1.symm) hxy
  have hC : (((data.filter (fun r => decide (r.1 = m))).map (fun r => r.2.1)).dedup).Nodup :=
    List.nodup_dedup _
  have hset : (((keysOf data).filter (fun k => decide (k.1 = m))).map (fun k => k.2)).toFinset
      = (((data.filter (fun r => decide (r.1 = m))).map (fun r => r.2.1)).dedup).toFinset := by
    apply Finset.ext
    intro d
    simp only [List.mem_toFinset, List.mem_map, List.mem_filter, List.mem_dedup,
      decide_eq_true_iff, mem_keysOf, keyOf]
    constructor
    · rintro ⟨k, ⟨⟨r, hr, hk⟩, hk1⟩, hk2⟩
      refine ⟨r, ⟨hr, ?_⟩, ?_⟩
      · have : r.1 = k.1 := congrArg Prod.fst hk
        rw [this, hk1]
      · have : r.2.1 = k.2 := congrArg Prod.snd hk
        rw [this, hk2]
    · rintro ⟨r, ⟨hr, hr1⟩, hr2⟩
      exact ⟨(m, d), ⟨⟨r, hr, by rw [hr1, hr2]⟩, rfl⟩, rfl⟩
  have lenA : ((keysOf data).filter (fun k => decide (k.1 = m))).length
      = (((keysOf data).filter (fun k => decide (k.1 = m))).map (fun k => k.2)).length :=
    (List.length_map _ _).symm
  rw [lenA, ← List.toFinset_card_of_nodup hB, ← List.toFinset_card_of_nodup hC, hset]

theorem weekly_filter_weeks {β : Type} [Add β] [Zero β] (data : List (Int × Date × β)) (m : Int) :
    ((weeklyOf data).filter (fun r => decide (r.my = m))).map (fun r => r.week)
      = List.range' 1 (((data.filter (fun r => decide (r.1 = m))).map (fun r => r.2.1)).dedup.length) := by
  rw [weeklyOf, addWeeks_filter_week]
  simp only [List.count_nil]
  rw [aggRows, map_filter_fst_length]
  have hperm : ((sortedKeys data).filter (fun k => decide (k.1 = m))).length
      = ((keysOf data).filter (fun k => decide (k.1 = m))).length :=
    ((sortedKeys_perm data).filter _).length_eq
  rw [hperm, keysOf_filter_fst_length]

theorem maxD_choice (a b : Date) : maxD a b = a ∨ maxD a b = b := by
  by_cases h : dateLE a b
  · rw [maxD, if_pos h]; exact Or.inr rfl
  · rw [maxD, if_neg h]; exact Or.inl rfl

theorem dateLE_maxD_left (a b : Date) : dateLE a (maxD a b) := by
  by_cases h : dateLE a b
  · rw [maxD, if_pos h]; exact h
  · rw [maxD, if_neg h]; exact dateLE_refl a

theorem dateLE_maxD_right (a b : Date) : dateLE b (maxD a b) := by
  by_cases h : dateLE a b
  · rw [maxD, if_pos h]; exact dateLE_refl b
  · rw [maxD, if_neg h]
    rcases dateLE_total a b with h' | h'
    · exact absurd h' h
    · exact h'

theorem foldl_maxD_spec (l : List Date) : ∀ d0 : Date,
    (l.foldl maxD d0 = d0 ∨ l.foldl maxD d0 ∈ l) ∧ dateLE d0 (l.foldl maxD d0) ∧
      ∀ y ∈ l, dateLE y (l.foldl maxD d0) := by
  induction l with
  | nil =>
    intro d0
    exact ⟨Or.inl rfl, dateLE_refl d0, fun y hy => absurd hy (List.not_mem_nil y)⟩
  | cons a t ih =>
    intro d0
    obtain ⟨hmem, hle, hub⟩ := ih (maxD d0 a)
    simp only [List.foldl_cons]
    refine ⟨?_, dateLE_trans (dateLE_maxD_left d0 a) hle, ?_⟩
    · rcases hmem with hm | hm
      · rcases maxD_choice d0 a with hc | hc
        · rw [hm, hc]; exact Or.inl rfl
        · rw [hm, hc]; exact Or.inr (List.mem_cons_self a t)
      · exact Or.inr (List.mem_cons_of_mem a hm)
    · intro y hy
      rcases List.mem_cons.mp hy with hy | hy
      · subst hy; exact dateLE_trans (dateLE_maxD_right d0 y) hle
      · exact hub y hy

theorem maxDate_spec {l : List Date} {x : Date} (h : maxDate l = some x) :
    x ∈ l ∧ ∀ y ∈ l, dateLE y x := by
  cases l with
  | nil => simp [maxDate] at h
  | cons d ds =>
    simp only [maxDate, Option.some.injEq] at h
    obtain ⟨hmem, hle, hub⟩ := foldl_maxD_spec ds d
    subst h
    constructor
    · rcases hmem with hm | hm
      · rw [hm]; exact List.mem_cons_self d ds
      · exact List.mem_cons_of_mem d hm
    · intro y hy
      rcases List.mem_cons.mp hy with hy | hy
      · subst hy; exact hle
      · exact hub y hy

theorem maxDate_isSome {l : List Date} (h : l ≠ []) : ∃ x, maxDate l = some x := by
  cases l with
  | nil => exact absurd rfl h
  | cons d ds => exact ⟨_, rfl⟩

theorem maxDate_unique {l₁ l₂ : List Date} {x₁ x₂ : Date}
    (h₁ : maxDate l₁ = some x₁) (h₂ : maxDate l₂ = some x₂)
    (hmem : ∀ d, d ∈ l₁ ↔ d ∈ l₂) : x₁ = x₂ := by
  obtain ⟨hm1, hu1⟩ := maxDate_spec h₁
  obtain ⟨hm2, hu2⟩ := maxDate_spec h₂
  exact dateLE_antisymm (hu2 x₁ ((hmem x₁).mp hm1)) (hu1 x₂ ((hmem x₂).mpr hm2))

theorem nodup_all_eq {l : List Int} {m : Int} (hnd : l.Nodup) (hm : m ∈ l)
    (hall : ∀ x ∈ l, x = m) : l = [m] := by
  cases l with
  | nil => simp at hm
  | cons a t =>
    have ha : a = m := hall a (List.mem_cons_self a t)
    subst ha
    cases t with
    | nil => rfl
    | cons b u =>
      have hb : b = a := hall b (by simp)
      have h1 := (List.nodup_cons.mp hnd).1
      exact absurd (by rw [hb] at h1 ⊢; exact List.mem_cons_self a u) h1

theorem dedup_const {l : List Int} {m : Int} (hne : l ≠ []) (hall : ∀ x ∈ l, x = m) :
    l.dedup = [m] := by
  apply nodup_all_eq (List.nodup_dedup l)
  · obtain ⟨a, t, rfl⟩ := List.exists_cons_of_ne_nil hne
    have ha : a = m := hall a (List.mem_cons_self a t)
    rw [List.mem_dedup, ← ha]
    exact List.mem_cons_self a t
  · intro x hx
    exact hall x (List.mem_dedup.mp hx)

theorem modeFirst_const {l : List Int} {m : Int} (hne : l ≠ []) (hall : ∀ x ∈ l, x = m) :
    modeFirst l = some m := by
  have hmodes : modesOf l = [m] := by
    rw [modesOf, modeMax, valueCounts, dedup_const hne hall]
    simp
  rw [modeFirst, hmodes]
  simp [List.insertionSort, List.orderedInsert]

theorem foldr_max_mem (ns : List Nat) (h : ns ≠ []) : ns.foldr max 0 ∈ ns := by
  induction ns with
  | nil => exact absurd rfl h
  | cons a t ih =>
    cases t with
    | nil => simp
    | cons b u =>
      have hmem := ih (by simp)
      show max a (List.foldr max 0 (b :: u)) ∈ a :: b :: u
      rcases max_choice a (List.foldr max 0 (b :: u)) with hc | hc
      · rw [hc]; exact List.mem_cons_self a (b :: u)
      · rw [hc]; exact List.mem_cons_of_mem a hmem

theorem head?_insertionSort_ne_nil {l : List Int} (h : l ≠ []) :
    ∃ m, (List.insertionSort (· ≤ ·) l).head? = some m := by
  have hlen : (List.insertionSort (· ≤ ·) l).length = l.length :=
    List.length_insertionSort _ _
  cases hs : List.insertionSort (· ≤ ·) l with
  | nil =>
    rw [hs] at hlen
    obtain ⟨a, t, rfl⟩ := List.exists_cons_of_ne_nil h
    simp at hlen
  | cons x xs => exact ⟨x, rfl⟩

theorem modeFirst_isSome {l : List Int} (hne : l ≠ []) : ∃ m, modeFirst l = some m := by
  rw [modeFirst]
  apply head?_insertionSort_ne_nil
  have hdne : l.dedup ≠ [] := by
    obtain ⟨a, t, rfl⟩ := List.exists_cons_of_ne_nil hne
    exact List.ne_nil_of_mem (List.mem_dedup.mpr (List.mem_cons_self a t))
  have hcne : valueCounts l ≠ [] := by
    rw [valueCounts]
    intro h
    exact hdne (List.map_eq_nil_iff.mp h)
  have hmapne : ((valueCounts l).map (fun p => p.2)) ≠ [] := by
    intro h
    exact hcne (List.map_eq_nil_iff.mp h)
  have hmx : modeMax l ∈ (valueCounts l).map (fun p => p.2) := foldr_max_mem _ hmapne
  obtain ⟨p, hp, hp2⟩ := List.mem_map.mp hmx
  apply List.ne_nil_of_mem (a := p.1)
  rw [modesOf]
  exact List.mem_map.mpr ⟨p, List.mem_filter.mpr ⟨hp, by rw [hp2]; simp⟩, rfl⟩

theorem weekly_row_key {β : Type} [Add β] [Zero β] {data : List (Int × Date × β)} {r : WRow β}
    (h : r ∈ weeklyOf data) :
    (r.my, r.date) ∈ keysOf data ∧ r.val = groupSum data (r.my, r.date) := by
  have h1 := mem_addWeeks h
  rw [aggRows] at h1
  obtain ⟨k, hk, hke⟩ := List.mem_map.mp h1
  have hk1 : k.1 = r.my := congrArg (fun t => t.1) hke
  have hk2 : k.2 = r.date := congrArg (fun t => t.2.1) hke
  have hkv : groupSum data k = r.val := congrArg (fun t => t.2.2) hke
  have hkk : k = (r.my, r.date) := Prod.ext hk1 hk2
  constructor
  · rw [← hkk]
    exact ((sortedKeys_perm data).mem_iff).mp hk
  · rw [← hkk, hkv]

theorem weekly_map_date {β : Type} [Add β] [Zero β] (data : List (Int × Date × β)) :
    (weeklyOf data).map (fun r => r.date) = (sortedKeys data).map (fun k => k.2) := by
  rw [weeklyOf, addWeeks_map_date, aggRows, List.map_map]
  rfl

theorem mem_weekly_dates {β : Type} [Add β] [Zero β] {data : List (Int × Date × β)} {d : Date} :
    d ∈ (weeklyOf data).map (fun r => r.date) ↔ ∃ r ∈ data, r.2.1 = d := by
  rw [weekly_map_date]
  simp only [List.mem_map]
  constructor
  · rintro ⟨k, hk, hk2⟩
    obtain ⟨r, hr, hkey⟩ := mem_sortedKeys.mp hk
    refine ⟨r, hr, ?_⟩
    have : r.2.1 = k.2 := congrArg Prod.snd hkey
    rw [this, hk2]
  · rintro ⟨r, hr, hrd⟩
    exact ⟨(r.1, r.2.1), mem_sortedKeys.mpr ⟨r, hr, rfl⟩, hrd⟩

theorem cmyOf_weekly_eq {β : Type} [Add β] [Zero β] {data : List (Int × Date × β)} {m : Int} {ld : Date}
    (hld : maxDate (data.map (fun r => r.2.1)) = some ld)
    (hm : ∀ r ∈ data, r.2.1 = ld → r.1 = m) :
    cmyOf (weeklyOf data) = some m := by
  obtain ⟨hldmem, hldub⟩ := maxDate_spec hld
  have hdne : (weeklyOf data).map (fun r => r.date) ≠ [] := by
    apply List.ne_nil_of_mem (a := ld)
    apply mem_weekly_dates.mpr
    obtain ⟨r, hr, hrd⟩ := List.mem_map.mp hldmem
    exact ⟨r, hr, hrd⟩
  obtain ⟨ld', hld'⟩ := maxDate_isSome hdne
  have hldeq : ld' = ld := by
    apply maxDate_unique hld' hld
    intro d
    rw [mem_weekly_dates]
    simp only [List.mem_map]
  rw [cmyOf, hld', hldeq]
  apply modeFirst_const
  · apply List.ne_nil_of_mem (a := m)
    have hmem : ld ∈ (weeklyOf data).map (fun r => r.date) := by
      apply mem_weekly_dates.mpr
      obtain ⟨r, hr, hrd⟩ := List.mem_map.mp hldmem
      exact ⟨r, hr, hrd⟩
    obtain ⟨r, hr, hrd⟩ := List.mem_map.mp hmem
    have hrm : r.my = m := by
      obtain ⟨hkey, _⟩ := weekly_row_key hr
      obtain ⟨s, hs, hskey⟩ := mem_keysOf.mp hkey
      have hs1 : s.1 = r.my := congrArg Prod.fst hskey
      have hs2 : s.2.1 = r.date := congrArg Prod.snd hskey
      rw [← hs1]
      exact hm s hs (by rw [hs2, hrd])
    refine List.mem_map.mpr ⟨r, List.mem_filter.mpr ⟨hr, by rw [hrd]; simp⟩, hrm⟩
  · intro x hx
    obtain ⟨r, hrf, hrx⟩ := List.mem_map.mp hx
    obtain ⟨hr, hrd⟩ := List.mem_filter.mp hrf
    have hrdate : r.date = ld := by simpa using hrd
    obtain ⟨hkey, _⟩ := weekly_row_key hr
    obtain ⟨s, hs, hskey⟩ := mem_keysOf.mp hkey
    have hs1 : s.1 = r.my := congrArg Prod.fst hskey
    have hs2 : s.2.1 = r.date := congrArg Prod.snd hskey
    rw [← hrx, ← hs1]
    exact hm s hs (by rw [hs2, hrdate])

theorem takeLastPy_subset {α : Type} (n : Nat) (l : List α) : takeLastPy n l ⊆ l := by
  rw [takeLastPy]
  split
  · exact fun a ha => ha
  · exact List.drop_subset _ l

theorem takeLastPy_of_length_le {α : Type} {n : Nat} {l : List α} (h : l.length ≤ n) :
    takeLastPy n l = l := by
  rw [takeLastPy]
  split
  · rfl
  · rw [Nat.sub_eq_zero_of_le h, List.drop_zero]

theorem sorted_lt_of_sorted_le_nodup {l : List Int}
    (hs : List.Sorted (· ≤ ·) l) (hn : l.Nodup) : List.Sorted (· < ·) l := by
  have h2 := List.Pairwise.and hs hn
  exact h2.imp (fun hab => lt_of_le_of_ne hab.1 hab.2)

theorem mem_takeLastPy_sorted {n : Nat} (hn : n ≠ 0) :
    ∀ {s : List Int}, List.Sorted (· < ·) s → ∀ {y : Int},
      (y ∈ takeLastPy n s ↔ y ∈ s ∧ (s.filter (fun z => decide (y < z))).length < n) := by
  intro s
  induction s with
  | nil => intro _ y; simp [takeLastPy]
  | cons a t ih =>
    intro hs y
    have ha : ∀ b ∈ t, a < b := (List.sorted_cons.mp hs).1
    have ht : List.Sorted (· < ·) t := (List.sorted_cons.mp hs).2
    by_cases hlen : t.length + 1 ≤ n
    · rw [takeLastPy, if_neg hn]
      have hz : (a :: t).length - n = 0 := by
        simp only [List.length_cons]
        omega
      rw [hz, List.drop_zero]
      constructor
      · intro hy
        refine ⟨hy, ?_⟩
        have hsub : ((a :: t).filter (fun z => decide (y < z))).length < (a :: t).length := by
          rw [List.length_filter_lt_length_iff_exists]
          exact ⟨y, hy, by simp⟩
        simp only [List.length_cons] at hsub
        omega
      · exact fun h => h.1
    · have hdrop : takeLastPy n (a :: t) = takeLastPy n t := by
        rw [takeLastPy, if_neg hn, takeLastPy, if_neg hn]
        have h1 : (a :: t).length - n = (t.length - n) + 1 := by
          simp only [List.length_cons]
          omega
        rw [h1, List.drop_succ_cons]
      rw [hdrop, ih ht]
      by_cases hy : y = a
      · subst hy
        constructor
        · rintro ⟨hyt, _⟩
          exact absurd (ha y hyt) (lt_irrefl y)
        · rintro ⟨hymem, hcnt⟩
          have hfeq : (y :: t).filter (fun z => decide (y < z)) = t := by
            rw [List.filter_cons, if_neg (by simp)]
            exact List.filter_eq_self.mpr (fun b hb => by
              simp only [decide_eq_true_iff]
              exact ha b hb)
          rw [hfeq] at hcnt
          omega
      · constructor
        · rintro ⟨hyt, hcnt⟩
          have hay : a < y := ha y hyt
          have hfeq : (a :: t).filter (fun z => decide (y < z)) = t.filter (fun z => decide (y < z)) := by
            rw [List.filter_cons, if_neg (by
              simp only [decide_eq_true_iff]
              omega)]
          rw [hfeq]
          exact ⟨List.mem_cons_of_mem a hyt, hcnt⟩
        · rintro ⟨hymem, hcnt⟩
          have hyt : y ∈ t := by
            rcases List.mem_cons.mp hymem with h | h
            · exact absurd h hy
            · exact h
          have hay : a < y := ha y hyt
          have hfeq : (a :: t).filter (fun z => decide (y < z)) = t.filter (fun z => decide (y < z)) := by
            rw [List.filter_cons, if_neg (by
              simp only [decide_eq_true_iff]
              omega)]
          rw [hfeq] at hcnt
          exact ⟨hyt, hcnt⟩

theorem mem_takeLast_sort {n : Nat} (hn : n ≠ 0) {l : List Int} (hnd : l.Nodup) {y : Int} :
    y ∈ takeLastPy n (List.insertionSort (· ≤ ·) l) ↔
      y ∈ l ∧ (l.filter (fun z => decide (y < z))).length < n := by
  have hperm := List.perm_insertionSort (· ≤ ·) l
  have hsorted : List.Sorted (· ≤ ·) (List.insertionSort (· ≤ ·) l) :=
    List.sorted_insertionSort (· ≤ ·) l
  have hnd' : (List.insertionSort (· ≤ ·) l).Nodup := hperm.symm.nodup hnd
  have hlt : List.Sorted (· < ·) (List.insertionSort (· ≤ ·) l) :=
    sorted_lt_of_sorted_le_nodup hsorted hnd'
  rw [mem_takeLastPy_sorted hn hlt, hperm.mem_iff, (hperm.filter _).length_eq]

theorem mem_lineYears {β : Type} (w : List (WRow β)) (cmy : Int) {years : Nat}
    (hy : years ≠ 0) (y : Int) :
    y ∈ lineYears w cmy years ↔
      y ∈ uniqueMYs w ∧ y ≤ cmy ∧
        ((uniqueMYs w).filter (fun z => decide (y < z ∧ z ≤ cmy))).length < years := by
  have hnu : (uniqueMYs w).Nodup := List.nodup_dedup _
  rw [lineYears, mem_takeLast_sort hy (List.Nodup.filter _ hnu)]
  rw [List.filter_filter]
  have hfun : (fun z : Int => decide (y < z) && decide (z ≤ cmy))
      = (fun z : Int => decide (y < z ∧ z ≤ cmy)) := by
    funext z
    by_cases h1 : y < z <;> by_cases h2 : z ≤ cmy <;> simp [h1, h2]
  rw [hfun, List.mem_filter]
  simp only [decide_eq_true_iff, and_assoc]

theorem mem_prevYears5 {β : Type} (w : List (WRow β)) (cmy : Int) (y : Int) :
    y ∈ prevYears5 w cmy ↔
      y ∈ uniqueMYs w ∧ y < cmy ∧
        ((uniqueMYs w).filter (fun z => decide (y < z ∧ z < cmy))).length < 5 := by
  have hnu : (uniqueMYs w).Nodup := List.nodup_dedup _
  rw [prevYears5, mem_takeLast_sort (by omega) (List.Nodup.filter _ hnu)]
  rw [List.filter_filter]
  have hfun : (fun z : Int => decide (y < z) && decide (z < cmy))
      = (fun z : Int => decide (y < z ∧ z < cmy)) := by
    funext z
    by_cases h1 : y < z <;> by_cases h2 : z < cmy <;> simp [h1, h2]
  rw [hfun, List.mem_filter]
  simp only [decide_eq_true_iff, and_assoc]

theorem seriesOf_map_fst {β : Type} (w : List (WRow β)) (y : Int) :
    (seriesOf w y).map Prod.fst = (w.filter (fun r => decide (r.my = y))).map (fun r => r.week) := by
  rw [seriesOf, List.map_map]
  rfl

theorem seriesOf_weekly_eq_nil {β : Type} [Add β] [Zero β] {data : List (Int × Date × β)} {y : Int}
    (h : ∀ r ∈ data, r.1 ≠ y) : seriesOf (weeklyOf data) y = [] := by
  rw [seriesOf]
  have hnil : (weeklyOf data).filter (fun r => decide (r.my = y)) = [] := by
    rw [List.filter_eq_nil_iff]
    intro r hr
    simp only [decide_eq_true_iff]
    intro hmy
    obtain ⟨hkey, _⟩ := weekly_row_key hr
    obtain ⟨s, hs, hskey⟩ := mem_keysOf.mp hkey
    have hs1 : s.1 = r.my := congrArg Prod.fst hskey
    exact h s hs (by rw [hs1, hmy])
  rw [hnil]
  rfl

theorem cmyOf_isSome {β : Type} [Add β] [Zero β] {data : List (Int × Date × β)}
    (h : data ≠ []) : ∃ c, cmyOf (weeklyOf data) = some c := by
  have hdne : (weeklyOf data).map (fun r => r.date) ≠ [] := by
    obtain ⟨r0, t, rfl⟩ := List.exists_cons_of_ne_nil h
    apply List.ne_nil_of_mem (a := r0.2.1)
    exact mem_weekly_dates.mpr ⟨r0, List.mem_cons_self _ _, rfl⟩
  obtain ⟨ld, hld⟩ := maxDate_isSome hdne
  rw [cmyOf, hld]
  apply modeFirst_isSome
  obtain ⟨hmem, _⟩ := maxDate_spec hld
  obtain ⟨r, hr, hrd⟩ := List.mem_map.mp hmem
  apply List.ne_nil_of_mem (a := r.my)
  exact List.mem_map.mpr ⟨r, List.mem_filter.mpr ⟨hr, by rw [hrd]; simp⟩, rfl⟩

theorem mem_unionCols {L : List (List String)} {x : String} :
    x ∈ unionCols L ↔ ∃ cs ∈ L, x ∈ cs := by
  induction L with
  | nil => simp [unionCols]
  | cons c cs ih =>
    simp only [unionCols, List.mem_dedup, List.mem_append, ih, List.mem_cons]
    constructor
    · rintro (h | ⟨d, hd, hx⟩)
      · exact ⟨c, Or.inl rfl, h⟩
      · exact ⟨d, Or.inr hd, hx⟩
    · rintro ⟨d, hd | hd, hx⟩
      · exact Or.inl (hd ▸ hx)
      · exact Or.inr ⟨d, hd, hx⟩

theorem weekly_filter_dates_pairwise {β : Type} [Add β] [Zero β]
    (data : List (Int × Date × β)) (m : Int) :
    List.Pairwise dateLT (((weeklyOf data).filter (fun r => decide (r.my = m))).map (fun r => r.date)) := by
  rw [weeklyOf, addWeeks_filter_map_date, aggRows]
  rw [List.filter_map, List.map_map]
  have hAgoal : ((sortedKeys data).filter
      ((fun r : Int × Date × β => decide (r.1 = m)) ∘ (fun k => (k.1, k.2, groupSum data k)))).map
        ((fun r : Int × Date × β => r.2.1) ∘ (fun k => (k.1, k.2, groupSum data k)))
      = ((sortedKeys data).filter (fun k => decide (k.1 = m))).map (fun k => k.2) := rfl
  rw [hAgoal]
  rw [List.pairwise_map]
  have hsorted : List.Pairwise (fun a b : Int × Date => keyLE a b ∧ a ≠ b)
      ((sortedKeys data).filter (fun k => decide (k.1 = m))) :=
    List.Pairwise.filter _ (List.Pairwise.and (sorted_sortedKeys data) (nodup_sortedKeys data))
  refine List.Pairwise.imp_of_mem ?_ hsorted
  intro a b hma hmb hab
  have ha1 : a.1 = m := by
    have := (List.mem_filter.mp hma).2
    simpa using this
  have hb1 : b.1 = m := by
    have := (List.mem_filter.mp hmb).2
    simpa using this
  obtain ⟨hle, hne⟩ := hab
  have hled : dateLE a.2 b.2 := by
    rcases hle with h | ⟨_, h⟩
    · omega
    · exact h
  apply dateLT_of_dateLE_of_ne hled
  intro hsnd
  exact hne (Prod.ext (ha1.trans hb1.symm) hsnd)

theorem line_ok_inv {df : Frame} {c : String} {years : Nat} {res : LineResult}
    (h : seasonal_line_plot df c years = Except.ok res) :
    cmyOf (lineWeekly df c) = some res.cmy ∧
    res.plotYears = lineYears (lineWeekly df c) res.cmy years ∧
    res.series = res.plotYears.map (fun y => (y, seriesOf (lineWeekly df c) y)) := by
  unfold seasonal_line_plot at h
  by_cases h1 : "MY" ∈ df.cols
  · rw [if_pos h1] at h
    by_cases h2 : "weekEndingDate" ∈ df.cols ∧ c ∈ df.cols
    · rw [if_pos h2] at h
      cases hcmy : cmyOf (lineWeekly df c) with
      | none => rw [hcmy] at h; simp at h
      | some cmy =>
        rw [hcmy] at h
        simp only [Except.ok.injEq] at h
        subst h
        exact ⟨rfl, rfl, rfl⟩
    · rw [if_neg h2] at h; simp at h
  · rw [if_neg h1] at h; simp at h

theorem comm_ok_inv {df : Frame} {cres : CommitResult}
    (h : seasonal_commitments_plot df = Except.ok cres) :
    cmyOf (commWeekly df) = some cres.cmy ∧
    cres.prevYears = prevYears5 (commWeekly df) cres.cmy := by
  unfold seasonal_commitments_plot at h
  by_cases h1 : "MY" ∈ df.cols
  · rw [if_pos h1] at h
    by_cases h2 : "weekEndingDate" ∈ df.cols ∧ "accumulatedExports" ∈ df.cols ∧ "outstandingSales" ∈ df.cols
    · rw [if_pos h2] at h
      cases hcmy : cmyOf (commWeekly df) with
      | none => rw [hcmy] at h; simp at h
      | some cmy =>
        rw [hcmy] at h
        simp only [Except.ok.injEq] at h
        subst h
        exact ⟨rfl, rfl⟩
    · rw [if_neg h2] at h; simp at h
  · rw [if_neg h1] at h; simp at h

/-- Claim C2: on a data set whose maximum date falls in MY 2026 and that
contains marketing years 2021 through 2026, the seasonal line extraction with
lookback 5 derives current MY 2026 and returns exactly the marketing years
2022 through 2026, five years in total, dropping 2021. -/
theorem C2_line_selection :
    (seasonal_line_plot dfW "v" 5).map (fun r => (r.cmy, r.plotYears))
      = Except.ok ((2026 : Int), [(2022 : Int), 2023, 2024, 2025, 2026]) := by
  rfl

/-- Claim C3: after grouping by (MY, weekEndingDate) and summing, the week
indices assigned to the rows of any marketing year are exactly 1..W in
increasing order, with no gaps and no duplicates, where W is the number of
distinct dates of that MY in the input; and those rows appear in strictly
increasing date order. -/
theorem C3_week_indexing {β : Type} [Add β] [Zero β] (data : List (Int × Date × β)) (m : Int) :
    ((weeklyOf data).filter (fun r => decide (r.my = m))).map (fun r => r.week)
        = List.range' 1 (((data.filter (fun r => decide (r.1 = m))).map (fun r => r.2.1)).dedup.length)
  ∧ List.Pairwise dateLT (((weeklyOf data).filter (fun r => decide (r.my = m))).map (fun r => r.date)) :=
  ⟨weekly_filter_weeks data m, weekly_filter_dates_pairwise data m⟩

/-- Claim C6: under the month-only rule (modelled from the spec, since the
repository never stamps an MY column), every date is assigned
calendar year + 1 when its month is at or past the fiscal start month and the
calendar year otherwise; a date on the fiscal start boundary belongs to the
new MY; with start month 8, 2024-07-28 maps to MY 2024 and 2024-08-04 to
MY 2025, and each receives relative week 1 in the weekly pipeline. -/
theorem C6_my_assignment (y : Int) (sm dday : Nat) (d : Date) :
    (assign_my sm d = if sm ≤ d.month then d.year + 1 else d.year)
  ∧ assign_my sm ⟨y, sm, dday⟩ = y + 1
  ∧ assign_my 8 ⟨2024, 7, 28⟩ = 2024
  ∧ assign_my 8 ⟨2024, 8, 4⟩ = 2025
  ∧ ((weeklyOf [((assign_my 8 ⟨2024, 7, 28⟩ : Int), (⟨2024, 7, 28⟩ : Date), (100 : Int)),
        (assign_my 8 ⟨2024, 8, 4⟩, ⟨2024, 8, 4⟩, 200)]).map (fun r => (r.my, r.week))
      = [((2024 : Int), (1 : Nat)), (2025, 1)]) := by
  refine ⟨rfl, ?_, rfl, rfl, rfl⟩
  simp [assign_my]

/-- Claim C7: the seasonal transform is a deterministic function of the input
data alone: a render at any two wall-clock times produces the same output,
and repeated runs on the same input are identical (idempotent). -/
theorem C7_deterministic (now1 now2 : Date) (df : Frame) (c : String) (years : Nat) :
    seasonal_line_render now1 df c years = seasonal_line_render now2 df c years
  ∧ seasonal_commitments_render now1 df = seasonal_commitments_render now2 df
  ∧ seasonal_line_plot df c years = seasonal_line_plot df c years
  ∧ seasonal_commitments_plot df = seasonal_commitments_plot df :=
  ⟨rfl, rfl, rfl, rfl⟩

/-- Claim C5: for each marketing year, the extracted seasonal series lists its
(week, value) pairs with weeks ascending exactly 1..W, and every value is the
raw per-(MY, date) group sum of the value column — no rescaling and in
particular no division by 1000 inside the transform (the division at
src/esr_views.py line 298 is display-only and outside the core). -/
theorem C5_raw_sorted_series (data : List (Int × Date × Int)) (y : Int) :
    ((seriesOf (weeklyOf data) y).map Prod.fst
        = List.range' 1 (((data.filter (fun r => decide (r.1 = y))).map (fun r => r.2.1)).dedup.length))
  ∧ (∀ p ∈ seriesOf (weeklyOf data) y, ∃ d : Date, (y, d) ∈ keysOf data ∧
        p.2 = groupSum data (y, d)) := by
  constructor
  · rw [seriesOf_map_fst]
    exact weekly_filter_weeks data y
  · intro p hp
    rw [seriesOf] at hp
    obtain ⟨r, hrf, hrp⟩ := List.mem_map.mp hp
    obtain ⟨hr, hrmy⟩ := List.mem_filter.mp hrf
    have hmy : r.my = y := by simpa using hrmy
    obtain ⟨hkey, hval⟩ := weekly_row_key hr
    refine ⟨r.date, ?_, ?_⟩
    · rw [← hmy]; exact hkey
    · have hp2 : p.2 = r.val := by rw [← hrp]
      rw [hp2, hval, hmy]

/-- Witness for claim C5 at the concrete two-week data set `dataOne`. -/
theorem C5_raw_sorted_series_witness :
    ((seriesOf (weeklyOf dataOne) 2026).map Prod.fst = List.range' 1 2)
  ∧ (∃ d : Date, ((2026 : Int), d) ∈ keysOf dataOne ∧
        (((1 : Nat), (50 : Int)) : Nat × Int).2 = groupSum dataOne (2026, d)) :=
  ⟨(C5_raw_sorted_series dataOne 2026).1,
   (C5_raw_sorted_series dataOne 2026).2 (1, 50) (by decide)⟩

/-- Claim C9: an unknown value column makes the seasonal line extraction fail
fast with a column error reported to the caller (never a silent result),
while a marketing year with no rows simply yields an empty series. -/
theorem C9_unknown_column (df : Frame) (c : String) (years : Nat) (y : Int) :
    ("MY" ∈ df.cols → c ∉ df.cols →
      seasonal_line_plot df c years = Except.error "KeyError: columns not in index")
  ∧ ((∀ r ∈ df.rows, r.my ≠ y) → seriesOf (lineWeekly df c) y = []) := by
  constructor
  · intro hmy hc
    unfold seasonal_line_plot
    rw [if_pos hmy, if_neg (fun hand => hc hand.2)]
  · intro h
    rw [lineWeekly]
    apply seriesOf_weekly_eq_nil
    intro r hr
    rw [selectData] at hr
    obtain ⟨s, hs, hse⟩ := List.mem_map.mp hr
    have hs1 : s.my = r.1 := congrArg (fun t => t.1) hse
    rw [← hs1]
    exact h s hs

/-- Witness for claim C9: the frame `dfOne` has no column "nope", and MY 1999
has no rows. -/
theorem C9_unknown_column_witness :
    seasonal_line_plot dfOne "nope" 5 = Except.error "KeyError: columns not in index"
  ∧ seriesOf (lineWeekly dfOne "nope") 1999 = [] :=
  ⟨(C9_unknown_column dfOne "nope" 5 1999).1 (by decide) (by decide),
   (C9_unknown_column dfOne "nope" 5 1999).2 (by decide)⟩

/-- Claim C4: the current marketing year used by both seasonal views equals
the MY of the maximum weekEndingDate present in the data set; it is derived
from the data (cf. C7 for clock independence). -/
theorem C4_cmy_from_data (df : Frame) (c : String) (years : Nat) (m : Int) (ld : Date)
    (hld : maxDate (df.rows.map (fun r => r.date)) = some ld)
    (hm : ∀ r ∈ df.rows, r.date = ld → r.my = m) :
    (∀ res, seasonal_line_plot df c years = Except.ok res → res.cmy = m)
  ∧ (∀ cres, seasonal_commitments_plot df = Except.ok cres → cres.cmy = m) := by
  have hline : cmyOf (lineWeekly df c) = some m := by
    rw [lineWeekly]
    apply cmyOf_weekly_eq
    · have hmap : (selectData df c).map (fun r => r.2.1) = df.rows.map (fun r => r.date) := by
        rw [selectData, List.map_map]
        rfl
      rw [hmap]
      exact hld
    · intro r hr hrd
      rw [selectData] at hr
      obtain ⟨s, hs, hse⟩ := List.mem_map.mp hr
      have hm1 : s.my = r.1 := congrArg (fun t => t.1) hse
      have hm2 : s.date = r.2.1 := congrArg (fun t => t.2.1) hse
      rw [← hm1]
      exact hm s hs (by rw [hm2, hrd])
  have hcomm : cmyOf (commWeekly df) = some m := by
    rw [commWeekly]
    apply cmyOf_weekly_eq
    · have hmap : ((df.rows.map (fun r =>
          (r.my, r.date, (lookupVal r "accumulatedExports", lookupVal r "outstandingSales")))).map
            (fun r => r.2.1)) = df.rows.map (fun r => r.date) := by
        rw [List.map_map]
        rfl
      rw [hmap]
      exact hld
    · intro r hr hrd
      obtain ⟨s, hs, hse⟩ := List.mem_map.mp hr
      have hm1 : s.my = r.1 := congrArg (fun t => t.1) hse
      have hm2 : s.date = r.2.1 := congrArg (fun t => t.2.1) hse
      rw [← hm1]
      exact hm s hs (by rw [hm2, hrd])
  constructor
  · intro res hres
    have h := (line_ok_inv hres).1
    rw [hline] at h
    exact ((Option.some.injEq _ _).mp h).symm
  · intro cres hres
    have h := (comm_ok_inv hres).1
    rw [hcomm] at h
    exact ((Option.some.injEq _ _).mp h).symm

/-- Witness for claim C4 on the concrete frame `dfW`, whose maximum date
2026-01-01 lies in the MY-2026 row. -/
theorem C4_cmy_from_data_witness : resW.cmy = 2026 ∧ cresW.cmy = 2026 :=
  ⟨(C4_cmy_from_data dfW "v" 5 2026 ⟨2026, 1, 1⟩ rfl (by decide)).1 resW rfl,
   (C4_cmy_from_data dfW "v" 5 2026 ⟨2026, 1, 1⟩ rfl (by decide)).2 cresW rfl⟩

/-- Claim C8: with the required columns present and nonempty data the line
view returns a result without error, and whenever at most `years` marketing
years at or below the current one are present, every one of them is selected:
fewer than lookback prior years degrade gracefully to as many as exist. -/
theorem C8_graceful_fewer_years (df : Frame) (c : String) (years : Nat)
    (res : LineResult) (y : Int) :
    ("MY" ∈ df.cols → "weekEndingDate" ∈ df.cols → c ∈ df.cols → df.rows ≠ [] →
      ∃ r, seasonal_line_plot df c years = Except.ok r)
  ∧ (seasonal_line_plot df c years = Except.ok res →
      ((uniqueMYs (lineWeekly df c)).filter (fun z => decide (z ≤ res.cmy))).length ≤ years →
      y ∈ uniqueMYs (lineWeekly df c) → y ≤ res.cmy → y ∈ res.plotYears) := by
  constructor
  · intro h1 h2 h3 h4
    have hdata : selectData df c ≠ [] := by
      rw [selectData]
      intro h
      exact h4 (List.map_eq_nil_iff.mp h)
    obtain ⟨cmy, hcmy⟩ := cmyOf_isSome hdata
    refine ⟨⟨cmy, lineYears (lineWeekly df c) cmy years,
      (lineYears (lineWeekly df c) cmy years).map
        (fun z => (z, seriesOf (lineWeekly df c) z))⟩, ?_⟩
    unfold seasonal_line_plot
    rw [if_pos h1, if_pos ⟨h2, h3⟩]
    have hcmy' : cmyOf (lineWeekly df c) = some cmy := hcmy
    rw [hcmy']
  · intro hres hcount hymem hyle
    obtain ⟨_, hyears, _⟩ := line_ok_inv hres
    rw [hyears, lineYears]
    rw [takeLastPy_of_length_le (by rw [List.length_insertionSort]; exact hcount)]
    rw [List.mem_insertionSort]
    exact List.mem_filter.mpr ⟨hymem, by simpa using hyle⟩

/-- Witness for claim C8 on `dfOne`, which contains only MY 2026: the view
succeeds and the single available year is selected. -/
theorem C8_graceful_fewer_years_witness :
    (∃ r, seasonal_line_plot dfOne "v" 5 = Except.ok r) ∧ (2026 : Int) ∈ resOne.plotYears :=
  ⟨(C8_graceful_fewer_years dfOne "v" 5 resOne 2026).1 (by decide) (by decide) (by decide)
      (by decide),
   (C8_graceful_fewer_years dfOne "v" 5 resOne 2026).2 rfl (by decide) (by decide) (by decide)⟩

/-- Claim C10: `get_esr_exports` concatenates the API responses without ever
adding an MY column, so when no response carries one, both seasonal views
reject its unmodified output with the missing-MY ValueError before any
transformation. -/
theorem C10_missing_my (responses : List Frame) (df : Frame) (c : String) (years : Nat)
    (hr : ∀ r ∈ responses, "MY" ∉ r.cols)
    (hok : get_esr_exports responses = Except.ok df) :
    "MY" ∉ df.cols
  ∧ seasonal_line_plot df c years = Except.error "ValueError: df_totals must contain column MY."
  ∧ seasonal_commitments_plot df
      = Except.error "ValueError: df_totals must contain column MY. Add it in get_esr_exports() by stamping the loop year." := by
  have hcols : "MY" ∉ df.cols := by
    unfold get_esr_exports at hok
    by_cases hW : "weekEndingDate" ∈ unionCols (responses.map (fun r => r.cols))
    · rw [if_pos hW] at hok
      injection hok with hok
      rw [← hok]
      intro hmem
      have hmem' : "MY" ∈ unionCols (responses.map (fun r => r.cols)) := hmem
      obtain ⟨cs, hcs, hx⟩ := mem_unionCols.mp hmem'
      obtain ⟨r, hrr, hre⟩ := List.mem_map.mp hcs
      exact hr r hrr (hre ▸ hx)
    · rw [if_neg hW] at hok
      simp at hok
  refine ⟨hcols, ?_, ?_⟩
  · unfold seasonal_line_plot
    rw [if_neg hcols]
  · unfold seasonal_commitments_plot
    rw [if_neg hcols]

/-- Witness for claim C10 on a concrete MY-free API response. -/
theorem C10_missing_my_witness :
    "MY" ∉ dfResp.cols
  ∧ seasonal_line_plot dfResp "weeklyExports" 5
      = Except.error "ValueError: df_totals must contain column MY."
  ∧ seasonal_commitments_plot dfResp
      = Except.error "ValueError: df_totals must contain column MY. Add it in get_esr_exports() by stamping the loop year." :=
  C10_missing_my respW dfResp "weeklyExports" 5 (by decide) rfl

/-- Claim C1 counterexample: on the frame `dfW` (marketing years 2021-2026,
current MY 2026) the year 2021 is among the five largest MYs strictly below
the current one, yet `seasonal_line_plot` selects only the five years
2022-2026 — not the six years the claimed selection rule would give — so the
claim fails for the seasonal line view. -/
theorem C1_selection_counterexample :
    specSelectStrict (uniqueMYs (lineWeekly dfW "v")) 2026 5 2021
  ∧ (seasonal_line_plot dfW "v" 5).map (fun r => r.plotYears)
      = Except.ok [(2022 : Int), 2023, 2024, 2025, 2026]
  ∧ (2021 : Int) ∉ [(2022 : Int), 2023, 2024, 2025, 2026]
  ∧ [(2022 : Int), 2023, 2024, 2025, 2026].length ≠ 6 :=
  ⟨by decide, rfl, by decide, by decide⟩

/-- Claim C1 (amended): the claimed rule holds only for the commitments view,
which displays the current MY together with exactly the five largest prior
MYs present in the data (six MYs when at least five prior years exist).  The
seasonal line view instead selects the `years` largest MYs at or below the
current one — at most `years` in total including the current one. -/
theorem C1_selection_amended (df : Frame) (c : String) (years : Nat)
    (res : LineResult) (cres : CommitResult) (y : Int) :
    (seasonal_commitments_plot df = Except.ok cres →
      (y ∈ cres.cmy :: cres.prevYears ↔
        specSelectStrict (uniqueMYs (commWeekly df)) cres.cmy 5 y))
  ∧ (years ≠ 0 → seasonal_line_plot df c years = Except.ok res →
      (y ∈ res.plotYears ↔
        y ∈ uniqueMYs (lineWeekly df c) ∧ y ≤ res.cmy ∧
          ((uniqueMYs (lineWeekly df c)).filter
            (fun z => decide (y < z ∧ z ≤ res.cmy))).length < years)) := by
  constructor
  · intro hok
    obtain ⟨_, hprev⟩ := comm_ok_inv hok
    rw [hprev, List.mem_cons, mem_prevYears5]
    exact Iff.rfl
  · intro hy hok
    obtain ⟨_, hyears, _⟩ := line_ok_inv hok
    rw [hyears]
    exact mem_lineYears (lineWeekly df c) res.cmy hy y

/-- Witness for the amended claim C1 on `dfW` at the year 2021: it is in the
commitments selection (and satisfies the strict spec rule) but not in the
line-view selection. -/
theorem C1_selection_amended_witness :
    ((2021 : Int) ∈ cresW.cmy :: cresW.prevYears ↔
      specSelectStrict (uniqueMYs (commWeekly dfW)) cresW.cmy 5 2021)
  ∧ ((2021 : Int) ∈ resW.plotYears ↔
      (2021 : Int) ∈ uniqueMYs (lineWeekly dfW "v") ∧ (2021 : Int) ≤ resW.cmy ∧
        ((uniqueMYs (lineWeekly dfW "v")).filter
          (fun z => decide (2021 < z ∧ z ≤ resW.cmy))).length < 5) :=
  ⟨(C1_selection_amended dfW "v" 5 resW cresW 2021).1 rfl,
   (C1_selection_amended dfW "v" 5 resW cresW 2021).2 (by decide) rfl⟩
